import Mathlib

/-!
Verification of the `add-to-project` action's filter/decision core and
removal path, shallowly embedded from `src/add-to-project.ts`.

Modelling conventions:
- JavaScript strings are Lean `String`s; the JS string operations used by
  the source (`toLowerCase`, `trim`, `startsWith`, `split(',')`) are
  re-implemented over the character list `String.data` so that every
  definition evaluates in the kernel.
- JS runtime faults (`TypeError` from a property access on
  `undefined`/`null`) are made explicit with `Except JsError`.
- The GraphQL boundary is opaque: responses are plain data supplied to the
  embedded orchestration functions.
-/

namespace AddToProject

/-- A JavaScript runtime exception class relevant to this code: a property
access or method call on `undefined`/`null`. -/
inductive JsError
  | typeError
  deriving DecidableEq, Repr

/-- Models JS `String.prototype.toLowerCase` (ASCII-faithful). -/
def jsToLower (s : String) : String :=
  ⟨s.data.map Char.toLower⟩

/-- Whitespace recognised by the model of JS `String.prototype.trim`. -/
def isJsSpace (c : Char) : Bool :=
  c == ' ' || c == '\t' || c == '\n' || c == '\r'

/-- Models JS `String.prototype.trim`. -/
def jsTrim (s : String) : String :=
  ⟨((s.data.dropWhile isJsSpace).reverse.dropWhile isJsSpace).reverse⟩

/-- Models JS `a.startsWith(b)`: `b` is a prefix of `a`. -/
def jsStartsWith (s pre : String) : Bool :=
  pre.data.isPrefixOf s.data

/-- Helper for the model of JS `String.prototype.split(',')`. -/
def splitCommaAux : List Char → List Char → List String
  | [], acc => [⟨acc.reverse⟩]
  | c :: rest, acc =>
    if c == ',' then ⟨acc.reverse⟩ :: splitCommaAux rest [] else splitCommaAux rest (c :: acc)

/-- Models JS `s.split(',')` (note: `"".split(',')` is `[""]`). -/
def jsSplitComma (s : String) : List String :=
  splitCommaAux s.data []

/-- The run's decision for the event, per the spec's `Decision` type. -/
inductive Decision
  | SKIP
  | ADD
  | REMOVE
  deriving DecidableEq, Repr

/-- Event-derived data used by the decision logic (`add-to-project.ts`
lines 61-64): raw label names (lowercased at line 62 before matching) and
the optional milestone title. -/
structure EventContext where
  labels : List String
  milestone : Option String
  deriving DecidableEq, Repr

/-- Configuration inputs used by the decision logic (`add-to-project.ts`
lines 42-56). `labeled` and `milestoned` are the preprocessed filter
lists; `removeUnmatched` and `fuzzyMatch` keep the raw input strings the
source compares against `'true'`/`'True'`. -/
structure FilterConfig where
  labeled : List String
  labelOperator : String
  milestoned : List String
  removeUnmatched : String
  fuzzyMatch : String
  deriving DecidableEq, Repr

/-- Preprocessing of the `labeled` input (lines 42-47): split on commas,
trim, lowercase, drop empties. -/
def preprocessLabeled (raw : String) : List String :=
  ((jsSplitComma raw).map (fun l => jsToLower (jsTrim l))).filter (fun l => decide (0 < l.length))

/-- Preprocessing of the `milestoned` input (lines 49-54): split on
commas, trim, drop empties — no lowercasing, unlike `labeled`. -/
def preprocessMilestoned (raw : String) : List String :=
  ((jsSplitComma raw).map jsTrim).filter (fun l => decide (0 < l.length))

/-- The label filter step (lines 71-86): `and` requires every filter
label present, `not` rejects when any filter label is present, any other
operator (the `or` default) requires some filter label present; an empty
filter always passes in all three branches. Returns `true` when the run
is not skipped at this step. -/
def labelsMatch (issueLabels labeled : List String) (labelOperator : String) : Bool :=
  if labelOperator == "and" then
    labeled.all (fun l => issueLabels.contains l)
  else if labelOperator == "not" then
    !(decide (0 < labeled.length) && issueLabels.any (fun l => labeled.contains l))
  else
    !(decide (0 < labeled.length) && !issueLabels.any (fun l => labeled.contains l))

/-- The source's `milestoneEnabled` (lines 93-96). The non-fuzzy branch is
`milestoned.includes(milestone)`, which is simply `false` when the
milestone is absent (`undefined` is never an element). The fuzzy branch
calls `milestone.startsWith(m)`, which throws a `TypeError` when the
milestone is absent and `milestoned` is non-empty; the callback runs as
soon as `some` inspects one element, so the fault is modelled whenever the
fuzzy branch receives an absent milestone (the caller only invokes it with
a non-empty `milestoned`). -/
def milestoneEnabled (milestoned : List String) (shouldFuzzyMatch : Bool) (milestone : Option String) :
    Except JsError Bool :=
  if !shouldFuzzyMatch then
    .ok (match milestone with
      | some t => milestoned.contains t
      | none => false)
  else
    match milestone with
    | some t => .ok (milestoned.any (fun m => jsStartsWith t m))
    | none =>
      if decide (0 < milestoned.length) then .error .typeError else .ok false

/-- The milestone guard of line 99, `milestoned.length > 0 &&
!milestoneEnabled(issueMilestone)`, with JS short-circuit evaluation:
an empty filter never calls `milestoneEnabled`. Returns `ok true` when
the milestone filter is non-empty and fails. -/
def milestoneGuard (milestoned : List String) (fuzzy : Bool) (milestone : Option String) :
    Except JsError Bool :=
  if decide (0 < milestoned.length) then
    match milestoneEnabled milestoned fuzzy milestone with
    | .error e => .error e
    | .ok b => .ok !b
  else
    .ok false

/-- Line 88: `fuzzyMatch === 'true' || fuzzyMatch === 'True'`. -/
def fuzzyEnabled (cfg : FilterConfig) : Bool :=
  cfg.fuzzyMatch == "true" || cfg.fuzzyMatch == "True"

/-- Line 100: `removeUnmatched === 'true' || removeUnmatched === 'True'`. -/
def removeEnabled (cfg : FilterConfig) : Bool :=
  cfg.removeUnmatched == "true" || cfg.removeUnmatched == "True"

/-- The decision portion of `addToProject` (lines 61-107): skip unless the
label filter passes; then, when the milestone guard fires, remove or skip
according to `remove-unmatched`; otherwise add. A `TypeError` escaping
`milestoneEnabled` propagates (the JS function would throw). -/
def decideAction (ctx : EventContext) (cfg : FilterConfig) : Except JsError Decision :=
  let issueLabels := ctx.labels.map jsToLower
  if !labelsMatch issueLabels cfg.labeled cfg.labelOperator then
    .ok .SKIP
  else
    match milestoneGuard cfg.milestoned (fuzzyEnabled cfg) ctx.milestone with
    | .error e => .error e
    | .ok true => if removeEnabled cfg then .ok .REMOVE else .ok .SKIP
    | .ok false => .ok .ADD

/-- Modelled from the spec (section 4.2): `matchesMilestone(issueMilestone,
filter, fuzzy)` — true on an empty filter, exact membership when not
fuzzy, prefix match when fuzzy; an absent milestone matches nothing. Total
by construction, used to compare the faulting source function against the
spec's decision table. -/
def matchesMilestone (milestone : Option String) (filt : List String) (fuzzy : Bool) : Bool :=
  if filt.isEmpty then
    true
  else
    match milestone with
    | some t => if fuzzy then filt.any (fun f => jsStartsWith t f) else filt.contains t
    | none => false

/-- Result of a successful match of the `urlParse` regular expression
(line 6-7): the named groups `ownerType`, `ownerName` and the parsed
`projectNumber`. -/
structure UrlMatch where
  ownerType : String
  ownerName : String
  projectNumber : Nat
  deriving DecidableEq, Repr

/-- Models `parseInt(digits, 10)` on a non-empty digit run. -/
def digitsToNat (ds : List Char) : Nat :=
  ds.foldl (fun a c => a * 10 + (c.toNat - 48)) 0

/-- Consumes an expected character sequence from the front of a stream,
returning the remainder on success. -/
def charsDropLit : List Char → List Char → Option (List Char)
  | [], cs => some cs
  | _ :: _, [] => none
  | l :: ls, c :: cs => if l == c then charsDropLit ls cs else none

/-- Consumes a literal from the front of a character stream, the way each
literal piece of the `urlParse` regular expression does. -/
def stripLit (lit : String) (cs : List Char) : Option (List Char) :=
  charsDropLit lit.data cs

/-- The part of the `urlParse` regular expression after the owner kind:
`(?<ownerName>[^\/]+)\/projects\/(?<projectNumber>\d+)`. The greedy
`[^\/]+` is forced to stop at the first `/` (a shorter match would leave a
non-`/` character where the regex requires `/`), and the greedy digit run
is maximal. The pattern is unanchored on the right, so trailing characters
after the digits are ignored. -/
def parseOwnerTail (ot : String) (cs3 : List Char) : Option UrlMatch :=
  let nameChars := cs3.takeWhile (fun c => !(c == '/'))
  let rest := cs3.dropWhile (fun c => !(c == '/'))
  if nameChars.isEmpty then none
  else
    match stripLit "/projects/" rest with
    | none => none
    | some cs4 =>
      let digits := cs4.takeWhile Char.isDigit
      if digits.isEmpty then none
      else some ⟨ot, ⟨nameChars⟩, digitsToNat digits⟩

/-- The `orgs|users` alternation of the `urlParse` regular expression of
lines 6-7 together with the tail: the alternation is decided by the
literal that follows the host, including its closing `/`. -/
def urlParseAfterHost (cs2 : List Char) : Option UrlMatch :=
  match stripLit "orgs/" cs2 with
  | some r => parseOwnerTail "orgs" r
  | none =>
    match stripLit "users/" cs2 with
    | some r => parseOwnerTail "users" r
    | none => none

/-- The `urlParse` regular expression of lines 6-7,
`^(?:https:\/\/)?github\.com\/(?<ownerType>orgs|users)\/...`, as a
deterministic matcher over the character list: optional scheme (which can
only match when present — the literal `github.com` cannot otherwise match
a string starting with `https:/`), the host literal, then the owner-kind
alternation and tail. The pattern is anchored on the left only. -/
def urlParseChars (cs : List Char) : Option UrlMatch :=
  let cs1 := match stripLit "https://" cs with
    | some r => r
    | none => cs
  match stripLit "github.com/" cs1 with
  | none => none
  | some cs2 => urlParseAfterHost cs2

/-- `projectUrl.match(urlParse)` together with the group extraction of
lines 111-121. -/
def urlParse (s : String) : Option UrlMatch :=
  urlParseChars s.data

/-- The error thrown by `mustGetOwnerTypeQuery` (line 245). -/
inductive OwnerTypeError
  | unsupported (ownerType : Option String)
  deriving DecidableEq, Repr

/-- `mustGetOwnerTypeQuery` (lines 241-249): `'orgs'` maps to
`'organization'`, `'users'` to `'user'`, anything else throws. -/
def mustGetOwnerTypeQuery (ownerType : Option String) : Except OwnerTypeError String :=
  let q : Option String :=
    if ownerType == some "orgs" then some "organization"
    else if ownerType == some "users" then some "user"
    else none
  match q with
  | none => .error (.unsupported ownerType)
  | some s => .ok s

/-- The `projectV2` node of the project-id lookup response. -/
structure ProjectV2Ref where
  id : String
  deriving DecidableEq, Repr

/-- An owner node of the lookup response; GraphQL may return `projectV2:
null` when the project number does not exist (the TS interface declares it
non-optional, but nothing enforces that at runtime). -/
structure OwnerNode where
  projectV2 : Option ProjectV2Ref
  deriving DecidableEq, Repr

/-- `ProjectNodeIDResponse` (lines 9-21): both owner roots optional. -/
structure ProjectNodeIDResponse where
  organization : Option OwnerNode
  user : Option OwnerNode
  deriving DecidableEq, Repr

/-- The project-id extraction of line 143,
`idResp[ownerTypeQuery]?.projectV2.id`: when the owner root is absent the
optional chain yields `undefined` (`ok none`) and the run continues; when
the root is present but `projectV2` is `null`, the unguarded `.id` access
throws a `TypeError`. -/
def getProjectId (resp : ProjectNodeIDResponse) (ownerTypeQuery : String) :
    Except JsError (Option String) :=
  let node : Option OwnerNode :=
    if ownerTypeQuery == "organization" then resp.organization
    else if ownerTypeQuery == "user" then resp.user
    else none
  match node with
  | none => .ok none
  | some n =>
    match n.projectV2 with
    | none => .error .typeError
    | some p => .ok (some p.id)

/-- A node of the removal query's item list (lines 168-175): the project
item id and the content id, which is absent when the inline fragment
`... on Issue` does not apply. -/
structure ProjectNextItem where
  id : String
  contentId : Option String
  deriving DecidableEq, Repr

/-- One page of the removal query's `items` connection (lines 161-176).
The cursor is advanced by the driver consuming the page list, mirroring
`cursor = pageInfo.endCursor` at line 190. -/
structure ItemsPage where
  nodes : List ProjectNextItem
  hasNextPage : Bool
  deriving DecidableEq, Repr

/-- Outcome of the `while (!item && hasNextPage)` loop of lines 154-191. -/
inductive LoopOutcome
  | found (item : ProjectNextItem)
  | notFound
  | missingOrg
  | pending
  deriving DecidableEq, Repr

/-- The item a loop outcome carries, if any. -/
def foundItem : LoopOutcome → Option ProjectNextItem
  | .found it => some it
  | _ => none

/-- The removal pagination loop (lines 150-191) run against the sequence
of responses the remote returns for the successive cursors; `none` stands
for a response without the `organization` field (line 187 returns on it).
Also counts the queries issued. `pending` marks the model artifact of the
response list running out while `hasNextPage` was still true. -/
def removeLoopList (pages : List (Option ItemsPage)) (nodeId : String) : LoopOutcome × Nat :=
  match pages with
  | [] => (.pending, 0)
  | none :: _ => (.missingOrg, 1)
  | some pg :: rest =>
    match pg.nodes.find? (fun n => n.contentId == some nodeId) with
    | some it => (.found it, 1)
    | none =>
      if pg.hasNextPage then
        let r := removeLoopList rest nodeId
        (r.1, r.2 + 1)
      else
        (.notFound, 1)

/-- The inner payload of the delete mutation response (lines 200-204). -/
structure DeletedItemPayload where
  deletedItemId : String
  deriving DecidableEq, Repr

/-- The delete mutation response object as `octokit.graphql` resolves it:
`{deleteProjectNextItem: {deletedItemId}}`. -/
structure DeleteResponse where
  deleteProjectNextItem : DeletedItemPayload
  deriving DecidableEq, Repr

/-- A value passed to `core.setOutput`: the source passes either a string
or (at line 213) a whole response object. -/
inductive OutputValue
  | str (s : String)
  | obj (r : DeleteResponse)
  deriving DecidableEq, Repr

/-- Observable effects of the removal path: warnings logged, item ids
passed to the delete mutation, and `setOutput` calls. -/
structure RunResult where
  warnings : Nat
  deletions : List String
  outputs : List (String × OutputValue)
  deriving DecidableEq, Repr

/-- The removal path of lines 149-213, driven by the loop outcome: a
response without `organization` returns at once (line 187) with nothing
logged or emitted; an exhausted search logs the warning of line 194 and
returns; a found item is deleted by id and the whole mutation response
object — not the id string inside it — is set as the `deletedItemId`
output (line 213). `deleteResp` gives the remote's response to the delete
mutation for an item id. -/
def runRemovePath (pages : List (Option ItemsPage)) (nodeId : String)
    (deleteResp : String → DeleteResponse) : RunResult :=
  match (removeLoopList pages nodeId).1 with
  | .missingOrg => ⟨0, [], []⟩
  | .pending => ⟨0, [], []⟩
  | .notFound => ⟨1, [], []⟩
  | .found it => ⟨0, [it.id], [("deletedItemId", .obj (deleteResp it.id))]⟩

/-- The well-behaved remote of the spec's pagination property: the
project's item list served in pages of 100, `hasNextPage` exactly while
items remain beyond the cursor. -/
def pagesOf (items : List ProjectNextItem) : List ItemsPage :=
  if items.length ≤ 100 then
    [⟨items, false⟩]
  else
    ⟨items.take 100, true⟩ :: pagesOf (items.drop 100)
  termination_by items.length
  decreasing_by simp; omega

/-! ## Helper lemmas -/

/-- `List.isPrefixOf` succeeds exactly when a completing suffix exists. -/
theorem isPrefixOf_iff_exists {α : Type} [BEq α] [LawfulBEq α] :
    ∀ {l₁ l₂ : List α}, l₁.isPrefixOf l₂ = true ↔ ∃ r, l₁ ++ r = l₂
  | [], l₂ => by simp [List.isPrefixOf]
  | a :: as, [] => by simp [List.isPrefixOf]
  | a :: as, b :: bs => by
    simp only [List.isPrefixOf, Bool.and_eq_true, beq_iff_eq, List.cons_append,
      List.cons.injEq, @isPrefixOf_iff_exists α _ _ as bs]
    constructor
    · rintro ⟨rfl, r, rfl⟩
      exact ⟨r, rfl, rfl⟩
    · rintro ⟨r, rfl, rfl⟩
      exact ⟨rfl, r, rfl⟩

/-! ## Claim theorems -/

/-- Claim C1, counterexample: at an event with no milestone and a config
with fuzzy matching on, a non-empty milestone filter and
`remove-unmatched` set, the claim's decision table answers REMOVE, but the
code does not return any decision — it throws a `TypeError` (from
`undefined.startsWith`). -/
theorem c1_fuzzy_absent_counterexample :
    decideAction ⟨[], none⟩ ⟨[], "or", ["v1"], "true", "true"⟩ = .error .typeError :=
  rfl

/-- Claim C4: totality fails. At an event with labels but no milestone and
a config with fuzzy matching enabled (here via the `'True'` spelling) and
a non-empty milestone filter, the decision logic throws a `TypeError`
instead of yielding one of SKIP/ADD/REMOVE: line 95 calls
`milestone.startsWith` on an `undefined` milestone. -/
theorem c4_fuzzy_absent_milestone_throws :
    decideAction ⟨["bug"], none⟩ ⟨[], "or", ["v1.0", "v2.0"], "false", "True"⟩ =
      .error .typeError :=
  rfl

/-- Claim C5: when the lookup response lacks the owner root (the remote's
`null` for an absent project/owner), line 143's optional chain yields
`undefined` and the run continues with an undefined project id — no fatal
configuration error is raised. When the root is present but `projectV2` is
`null`, the unguarded `.id` access throws a `TypeError`, an incidental
crash rather than a configuration error. -/
theorem c5_missing_project_not_config_error :
    getProjectId ⟨none, none⟩ "organization" = .ok none ∧
    getProjectId ⟨some ⟨none⟩, none⟩ "organization" = .error .typeError :=
  ⟨rfl, rfl⟩

/-- Claim C6: on the REMOVE path, an exhausted search logs one warning and
emits nothing (first conjunct, claim's not-found half holds); a found item
triggers exactly one delete mutation, but the value set as the
`deletedItemId` output is the whole mutation response object, not the
deleted item id string (second conjunct: the output holds
`OutputValue.obj` of the response, not `OutputValue.str "PVTI_1"`). -/
theorem c6_remove_path_output_is_response_object :
    runRemovePath [some ⟨[⟨"PVTI_1", some "NODE_A"⟩], false⟩] "NODE_B" (fun i => ⟨⟨i⟩⟩) =
      ⟨1, [], []⟩ ∧
    runRemovePath [some ⟨[⟨"PVTI_1", some "NODE_A"⟩], false⟩] "NODE_A" (fun i => ⟨⟨i⟩⟩) =
      ⟨0, ["PVTI_1"], [("deletedItemId", .obj ⟨⟨"PVTI_1"⟩⟩)]⟩ :=
  ⟨rfl, rfl⟩

/-- Claim C9: whenever the pagination loop receives a page response
without the `organization` field, the removal path returns at once with no
warning, no delete mutation and no output (line 187's bare `return`). -/
theorem c9_missing_org_silent_return (pages : List (Option ItemsPage)) (nodeId : String)
    (deleteResp : String → DeleteResponse)
    (h : (removeLoopList pages nodeId).1 = .missingOrg) :
    runRemovePath pages nodeId deleteResp = ⟨0, [], []⟩ := by
  unfold runRemovePath
  rw [h]

/-- Witness for C9: a first response with no `organization` field (as a
user-owned project produces, the removal query being hard-coded to the
`organization` root) ends the run silently. -/
theorem c9_missing_org_silent_return_witness :
    runRemovePath [none] "NODE_A" (fun i => ⟨⟨i⟩⟩) = ⟨0, [], []⟩ :=
  c9_missing_org_silent_return [none] "NODE_A" (fun i => ⟨⟨i⟩⟩) rfl

/-- Claim C10: milestone matching is case-sensitive while label matching
is not. The `milestoned` input is trimmed but keeps its case, whereas the
`labeled` input is trimmed and lowercased (first two conjuncts); exact and
fuzzy milestone matching distinguish case and compare the title as-is
(middle conjuncts); label matching succeeds across differing case because
both sides are lowercased (last conjunct). -/
theorem c10_milestone_case_sensitivity :
    preprocessMilestoned " V2.0 ,beta" = ["V2.0", "beta"] ∧
    preprocessLabeled " V2.0 ,Beta" = ["v2.0", "beta"] ∧
    milestoneEnabled ["v2.0"] false (some "V2.0") = .ok false ∧
    milestoneEnabled ["V2.0"] false (some "V2.0") = .ok true ∧
    milestoneEnabled ["v2"] true (some "V2.0") = .ok false ∧
    milestoneEnabled ["V2"] true (some "V2.0") = .ok true ∧
    labelsMatch (["BUG"].map jsToLower) (preprocessLabeled "Bug") "or" = true :=
  ⟨by decide, by decide, rfl, rfl, rfl, rfl, by decide⟩

/-- Claim C3: for a non-empty milestone filter and a present milestone
title, the non-fuzzy match holds exactly on membership of the title in the
filter, and the fuzzy match holds exactly when some filter entry is a
prefix of the title; an empty filter imposes no constraint — the guard of
line 99 short-circuits and never rejects. -/
theorem c3_milestone_match_semantics (F : List String) (t : String) (hF : F ≠ []) :
    (milestoneEnabled F false (some t) = .ok true ↔ t ∈ F) ∧
    (milestoneEnabled F true (some t) = .ok true ↔
      ∃ f ∈ F, ∃ r : List Char, f.data ++ r = t.data) ∧
    (∀ fuzzy m, milestoneGuard [] fuzzy m = .ok false) := by
  refine ⟨?_, ?_, ?_⟩
  · simp [milestoneEnabled]
  · simp only [milestoneEnabled, Bool.not_true, Bool.false_eq_true, if_false,
      Except.ok.injEq, jsStartsWith, List.any_eq_true]
    constructor
    · rintro ⟨f, hf, hp⟩
      exact ⟨f, hf, (isPrefixOf_iff_exists).mp hp⟩
    · rintro ⟨f, hf, hp⟩
      exact ⟨f, hf, (isPrefixOf_iff_exists).mpr hp⟩
  · intro fuzzy m
    simp [milestoneGuard]

/-- Witness for C3: exact match on an exact title, fuzzy match on a
prefix, both through a non-empty filter. -/
theorem c3_milestone_match_semantics_witness :
    milestoneEnabled ["v2.0"] false (some "v2.0") = .ok true ∧
    milestoneEnabled ["v2"] true (some "v2.0") = .ok true :=
  ⟨((c3_milestone_match_semantics ["v2.0"] "v2.0" (by decide)).1).mpr (by decide),
   ((c3_milestone_match_semantics ["v2"] "v2.0" (by decide)).2.1).mpr
      ⟨"v2", by decide, ['.', '0'], by decide⟩⟩

/-- Claim C2: with both sides lowercased the way lines 46 and 62 do, the
`and` operator passes exactly when every filter label is an issue label up
to case; `not` passes exactly when the filter is empty or shares no label
with the issue up to case; every other operator string (the `or` default)
passes exactly when the filter is empty or shares some label with the
issue up to case. -/
theorem c2_label_operator_semantics (L F : List String) :
    (labelsMatch (L.map jsToLower) (F.map jsToLower) "and" = true ↔
      ∀ f ∈ F, ∃ l ∈ L, jsToLower l = jsToLower f) ∧
    (labelsMatch (L.map jsToLower) (F.map jsToLower) "not" = true ↔
      (F = [] ∨ ∀ f ∈ F, ∀ l ∈ L, jsToLower l ≠ jsToLower f)) ∧
    (∀ op : String, op ≠ "and" → op ≠ "not" →
      (labelsMatch (L.map jsToLower) (F.map jsToLower) op = true ↔
        (F = [] ∨ ∃ f ∈ F, ∃ l ∈ L, jsToLower l = jsToLower f))) := by
  refine ⟨?_, ?_, ?_⟩
  · simp [labelsMatch, List.all_eq_true, List.mem_map]
  · rcases F with _ | ⟨f, fs⟩
    · simp [labelsMatch]
    · simp [labelsMatch, List.any_eq_true, List.mem_map]
      constructor
      · intro h
        exact ⟨fun l hl => (h l hl).1, fun a ha l hl => fun he => (h l hl).2 a ha he.symm⟩
      · intro h l hl
        exact ⟨h.1 l hl, fun a ha he => h.2 a ha l hl he.symm⟩
  · intro op h1 h2
    rcases F with _ | ⟨f, fs⟩
    · simp [labelsMatch, h1, h2]
    · have e1 : (op == "and") = false := by simp [h1]
      have e2 : (op == "not") = false := by simp [h2]
      simp [labelsMatch, e1, e2, List.any_eq_true, List.mem_map]
      constructor
      · rintro ⟨l, hl, he | ⟨a, ha, he⟩⟩
        · exact Or.inl ⟨l, hl, he⟩
        · exact Or.inr ⟨a, ha, l, hl, he.symm⟩
      · rintro (⟨l, hl, he⟩ | ⟨a, ha, l, hl, he⟩)
        · exact ⟨l, hl, Or.inl he⟩
        · exact ⟨l, hl, Or.inr ⟨a, ha, he.symm⟩⟩

/-- Witness for C2: the default operator passes on a shared label that
differs only in case. -/
theorem c2_label_operator_semantics_witness :
    labelsMatch (["Bug", "urgent"].map jsToLower) (["BUG"].map jsToLower) "or" = true :=
  ((c2_label_operator_semantics ["Bug", "urgent"] ["BUG"]).2.2 "or" (by decide) (by decide)).mpr
    (Or.inr ⟨"BUG", by decide, "Bug", by decide, by decide⟩)

/-- Claim C1 (amended): on every input outside the faulting region — that
is, unless fuzzy matching is enabled, the milestone is absent and the
milestone filter is non-empty (where line 95 throws, see C4) — the
decision is SKIP when the label filter rejects; otherwise REMOVE or SKIP
(by `remove-unmatched`) when the milestone filter is non-empty and the
milestone does not match; otherwise ADD. `matchesMilestone` is the spec's
total milestone predicate. -/
theorem c1_decision_rule (ctx : EventContext) (cfg : FilterConfig)
    (h : fuzzyEnabled cfg = false ∨ ctx.milestone ≠ none ∨ cfg.milestoned = []) :
    decideAction ctx cfg = .ok (
      if !labelsMatch (ctx.labels.map jsToLower) cfg.labeled cfg.labelOperator then .SKIP
      else if !cfg.milestoned.isEmpty &&
          !matchesMilestone ctx.milestone cfg.milestoned (fuzzyEnabled cfg) then
        if removeEnabled cfg then .REMOVE else .SKIP
      else .ADD) := by
  unfold decideAction
  cases hl : labelsMatch (ctx.labels.map jsToLower) cfg.labeled cfg.labelOperator
  · simp [hl]
  · rcases hms : cfg.milestoned with _ | ⟨m, ms⟩
    · simp [milestoneGuard, matchesMilestone, hl, hms]
    · cases hf : fuzzyEnabled cfg
      · rcases hmil : ctx.milestone with _ | t
        · simp only [milestoneGuard, milestoneEnabled, matchesMilestone, hl, hms, hf, hmil]
          simp
          cases removeEnabled cfg <;> simp
        · simp only [milestoneGuard, milestoneEnabled, matchesMilestone, hl, hms, hf, hmil]
          by_cases h1 : t = m <;> by_cases h2 : t ∈ ms <;> simp [h1, h2] <;>
            (cases removeEnabled cfg <;> simp)
      · rcases h with h | h | h
        · rw [hf] at h
          cases h
        · rcases hmil : ctx.milestone with _ | t
          · exact absurd hmil h
          · simp only [milestoneGuard, milestoneEnabled, matchesMilestone, hl, hms, hf, hmil]
            cases hany : (m :: ms).any (fun f => jsStartsWith t f) <;> simp [hany] <;>
              (cases removeEnabled cfg <;> simp)
        · rw [h] at hms
          cases hms

/-- Witness for C1: a matching label, a non-matching milestone against a
non-empty filter and `remove-unmatched: true` yield REMOVE. -/
theorem c1_decision_rule_witness :
    decideAction ⟨["bug"], some "v1.0"⟩ ⟨["bug"], "or", ["v2.0"], "true", "false"⟩ =
      .ok .REMOVE :=
  (c1_decision_rule ⟨["bug"], some "v1.0"⟩ ⟨["bug"], "or", ["v2.0"], "true", "false"⟩
      (Or.inl rfl)).trans (by rfl)


/-- Pagination of the loop against the well-behaved remote `pagesOf`:
the number of queries is bounded by the number of 100-item pages plus the
mandatory first query, and the loop finds a matching item exactly when the
item list contains one. Proved by strong induction on the item count. -/
theorem removeLoop_pagesOf_spec (nid : String) :
    ∀ n (items : List ProjectNextItem), items.length = n →
      (foundItem (removeLoopList ((pagesOf items).map some) nid).1).isSome
          = items.any (fun x => x.contentId == some nid) ∧
      (removeLoopList ((pagesOf items).map some) nid).2 ≤ items.length / 100 + 1 := by
  intro n
  induction n using Nat.strong_induction_on with
  | _ n ih =>
    intro items hlen
    rw [pagesOf]
    split
    · cases hfind : items.find? (fun x => x.contentId == some nid) with
      | some it =>
        simp [removeLoopList, hfind, foundItem]
        exact ⟨it, List.mem_of_find?_eq_some hfind, by simpa using List.find?_some hfind⟩
      | none =>
        simp [removeLoopList, hfind, foundItem]
        intro x hx
        simpa using List.find?_eq_none.mp hfind x hx
    · rename_i hgt
      cases hfind : (items.take 100).find? (fun x => x.contentId == some nid) with
      | some it =>
        simp [removeLoopList, hfind, foundItem]
        exact ⟨it, List.mem_of_mem_take (List.mem_of_find?_eq_some hfind),
          by simpa using List.find?_some hfind⟩
      | none =>
        have hlt : (items.drop 100).length < n := by
          simp
          omega
        have hih := ih (items.drop 100).length hlt (items.drop 100) rfl
        simp [removeLoopList, hfind]
        constructor
        · have htake : (items.take 100).any (fun x => x.contentId == some nid) = false :=
            List.any_eq_false.mpr (List.find?_eq_none.mp hfind)
          conv_rhs => rw [← List.take_append_drop 100 items]
          rw [List.any_append, htake, Bool.false_or]
          exact hih.1
        · have hdiv : items.length / 100 = (items.length - 100) / 100 + 1 :=
            Nat.div_eq_sub_div (by omega) (by omega)
          have hc := hih.2
          simp only [List.length_drop] at hc
          omega

/-- Claim C8: against a remote serving the project's `totalCount` items in
pages of 100 with the cursor advanced from each response (the `pagesOf`
model), the removal loop issues at most `totalCount / 100 + 1` queries —
it stops at a found item or at `hasNextPage: false` — and it ends in
`found` exactly when an item with the event's node id exists among the
served items. -/
theorem c8_pagination_bound_and_finds (items : List ProjectNextItem) (nodeId : String) :
    (removeLoopList ((pagesOf items).map some) nodeId).2 ≤ items.length / 100 + 1 ∧
    (foundItem (removeLoopList ((pagesOf items).map some) nodeId).1).isSome
      = items.any (fun x => x.contentId == some nodeId) :=
  ⟨(removeLoop_pagesOf_spec nodeId items.length items rfl).2,
   (removeLoop_pagesOf_spec nodeId items.length items rfl).1⟩

/-- Success of `charsDropLit` is exactly a decomposition of the stream as
the literal followed by the remainder. -/
theorem charsDropLit_eq_some :
    ∀ {l cs r : List Char}, charsDropLit l cs = some r ↔ cs = l ++ r
  | [], cs, r => by simp [charsDropLit, eq_comm]
  | l :: ls, [], r => by simp [charsDropLit]
  | l :: ls, c :: cs, r => by
    simp only [charsDropLit, List.cons_append, List.cons.injEq]
    split
    · rename_i h
      rw [@charsDropLit_eq_some ls cs r]
      simp [beq_iff_eq] at h
      simp [h.symm]
    · rename_i h
      simp [beq_iff_eq] at h
      simp [Ne.symm h]

/-- `stripLit` phrased as a decomposition. -/
theorem stripLit_eq_some {lit : String} {cs r : List Char} :
    stripLit lit cs = some r ↔ cs = lit.data ++ r :=
  charsDropLit_eq_some

/-- `stripLit` on a stream that starts with the literal. -/
theorem stripLit_append (lit : String) (r : List Char) :
    stripLit lit (lit.data ++ r) = some r :=
  stripLit_eq_some.mpr rfl

/-- The matcher after the scheme, host and `orgs/` have been consumed. -/
theorem urlParseChars_orgs (X : List Char) :
    urlParseChars ("https://".data ++ ("github.com/".data ++ ("orgs/".data ++ X)))
      = parseOwnerTail "orgs" X :=
  rfl

/-- The matcher after the scheme, host and `users/` have been consumed. -/
theorem urlParseChars_users (X : List Char) :
    urlParseChars ("https://".data ++ ("github.com/".data ++ ("users/".data ++ X)))
      = parseOwnerTail "users" X :=
  rfl

/-- `stripLit` for the `/projects/` literal. -/
theorem stripLit_projects (Y : List Char) :
    stripLit "/projects/" ("/projects/".data ++ Y) = some Y :=
  rfl

/-- The owner-name scan stops at the `/` that opens `/projects/`. -/
theorem takeWhile_projects (X : List Char) :
    ("/projects/".data ++ X).takeWhile (fun c => !(c == '/')) = [] :=
  rfl

/-- The owner-name scan leaves `/projects/` and what follows in place. -/
theorem dropWhile_projects (X : List Char) :
    ("/projects/".data ++ X).dropWhile (fun c => !(c == '/')) = "/projects/".data ++ X :=
  rfl

/-- `parseOwnerTail` on a well-formed tail: a non-empty slash-free owner,
`/projects/`, a digit run and a suffix that does not begin with a digit
yield the owner and the parsed number. -/
theorem parseOwnerTail_spec (ot : String) (owner : String) (digits : List Char) (suffix : String)
    (ho : owner.data ≠ []) (hsl : ∀ c ∈ owner.data, c ≠ '/')
    (hd : digits ≠ []) (hdig : ∀ c ∈ digits, c.isDigit = true)
    (hsuf : suffix.data.takeWhile Char.isDigit = []) :
    parseOwnerTail ot (owner.data ++ ("/projects/".data ++ (digits ++ suffix.data)))
      = some ⟨ot, owner, digitsToNat digits⟩ := by
  have hp : ∀ c ∈ owner.data, (!(c == '/')) = true := by
    intro c hc
    simpa using hsl c hc
  rw [parseOwnerTail]
  rw [List.takeWhile_append_of_pos hp, List.dropWhile_append_of_pos hp,
    takeWhile_projects, dropWhile_projects, List.append_nil, stripLit_projects]
  simp only [List.isEmpty_eq_false.mpr ho, Bool.false_eq_true, if_false]
  rw [List.takeWhile_append_of_pos hdig, hsuf, List.append_nil]
  simp only [List.isEmpty_eq_false.mpr hd, Bool.false_eq_true, if_false]

/-- Modelled from the spec (section 4.1): the string begins with the
documented shape `host/(orgs|users)/<owner>/projects/<number>`, with the
optional `https://` scheme, the owner non-empty and slash-free, a
non-empty digit run, and `rest` whatever follows the digits. -/
def ShapedStart (s : String) : Prop :=
  ∃ (scheme ownerName digits rest : List Char) (kind : String),
    (scheme = [] ∨ scheme = "https://".data) ∧
    (kind = "orgs" ∨ kind = "users") ∧
    ownerName ≠ [] ∧ (∀ c ∈ ownerName, c ≠ '/') ∧
    digits ≠ [] ∧ (∀ c ∈ digits, c.isDigit = true) ∧
    s.data = scheme ++ "github.com/".data ++ kind.data ++ ['/'] ++ ownerName
      ++ "/projects/".data ++ digits ++ rest

/-- A successful `parseOwnerTail` decomposes its input as owner name,
`/projects/`, digit run and rest, and returns exactly those groups. -/
theorem parseOwnerTail_shaped {ot : String} {cs3 : List Char} {r : UrlMatch}
    (h : parseOwnerTail ot cs3 = some r) :
    ∃ (ownerName digits rest : List Char),
      ownerName ≠ [] ∧ (∀ c ∈ ownerName, c ≠ '/') ∧
      digits ≠ [] ∧ (∀ c ∈ digits, c.isDigit = true) ∧
      cs3 = ownerName ++ "/projects/".data ++ digits ++ rest ∧
      r = ⟨ot, ⟨ownerName⟩, digitsToNat digits⟩ := by
  unfold parseOwnerTail at h
  by_cases he : (cs3.takeWhile (fun c => !(c == '/'))).isEmpty
  · rw [if_pos he] at h
    cases h
  · rw [if_neg he] at h
    cases h2 : stripLit "/projects/" (cs3.dropWhile (fun c => !(c == '/'))) with
    | none =>
      rw [h2] at h
      cases h
    | some cs4 =>
      rw [h2] at h
      simp only [] at h
      by_cases hd : (cs4.takeWhile Char.isDigit).isEmpty
      · rw [if_pos hd] at h
        cases h
      · rw [if_neg hd] at h
        injection h with h
        refine ⟨cs3.takeWhile (fun c => !(c == '/')), cs4.takeWhile Char.isDigit,
          cs4.dropWhile Char.isDigit, ?_, ?_, ?_, ?_, ?_, h.symm⟩
        · simpa using he
        · intro c hc
          have := List.mem_takeWhile_imp hc
          simpa using this
        · simpa using hd
        · intro c hc
          exact List.mem_takeWhile_imp hc
        · have e3 : cs3 = cs3.takeWhile (fun c => !(c == '/'))
              ++ cs3.dropWhile (fun c => !(c == '/')) :=
            (List.takeWhile_append_dropWhile _ _).symm
          have e4 : cs3.dropWhile (fun c => !(c == '/'))
              = "/projects/".data ++ cs4 := stripLit_eq_some.mp h2
          have e5 : cs4 = cs4.takeWhile Char.isDigit ++ cs4.dropWhile Char.isDigit :=
            (List.takeWhile_append_dropWhile _ _).symm
          conv_lhs => rw [e3]
          rw [e4, e5]
          simp [List.append_assoc]

/-- A successful owner-kind alternation consumes `orgs/` or `users/` and
hands the rest to `parseOwnerTail` under that kind. -/
theorem urlParseAfterHost_shaped {cs2 : List Char} {r : UrlMatch}
    (h : urlParseAfterHost cs2 = some r) :
    ∃ (kind : String) (cs3 : List Char),
      (kind = "orgs" ∨ kind = "users") ∧
      cs2 = kind.data ++ ['/'] ++ cs3 ∧ parseOwnerTail kind cs3 = some r := by
  unfold urlParseAfterHost at h
  cases h1 : stripLit "orgs/" cs2 with
  | some r1 =>
    rw [h1] at h
    refine ⟨"orgs", r1, Or.inl rfl, ?_, h⟩
    rw [stripLit_eq_some.mp h1]
    rfl
  | none =>
    rw [h1] at h
    cases h2 : stripLit "users/" cs2 with
    | some r2 =>
      rw [h2] at h
      refine ⟨"users", r2, Or.inr rfl, ?_, h⟩
      rw [stripLit_eq_some.mp h2]
      rfl
    | none =>
      rw [h2] at h
      cases h

/-- Only strings that begin with the documented shape parse successfully:
the right-unanchored pattern accepts trailing characters but nothing
else. -/
theorem urlParse_some_shaped {s : String} {r : UrlMatch} (h : urlParse s = some r) :
    ShapedStart s := by
  have hmain : ∀ (cs1 scheme : List Char), s.data = scheme ++ cs1 →
      (scheme = [] ∨ scheme = "https://".data) →
      (match stripLit "github.com/" cs1 with
        | none => none
        | some cs2 => urlParseAfterHost cs2) = some r →
      ShapedStart s := by
    intro cs1 scheme hs hscheme hm
    cases h2 : stripLit "github.com/" cs1 with
    | none =>
      rw [h2] at hm
      cases hm
    | some cs2 =>
      rw [h2] at hm
      simp only [] at hm
      rcases urlParseAfterHost_shaped hm with ⟨kind, cs3, hkind, hcs2, htail⟩
      rcases parseOwnerTail_shaped htail with
        ⟨ownerName, digits, rest, hne, hsl, hdne, hdig, hcs3, _⟩
      refine ⟨scheme, ownerName, digits, rest, kind, hscheme, hkind, hne, hsl, hdne, hdig, ?_⟩
      rw [hs, stripLit_eq_some.mp h2, hcs2, hcs3]
      simp [List.append_assoc]
  unfold urlParse urlParseChars at h
  cases h1 : stripLit "https://" s.data with
  | some r1 =>
    rw [h1] at h
    simp only [] at h
    exact hmain r1 "https://".data (stripLit_eq_some.mp h1) (Or.inr rfl) h
  | none =>
    rw [h1] at h
    simp only [] at h
    exact hmain s.data [] (by simp) (Or.inl rfl) h

/-- Modelled from the spec (section 4.1): the exact well-formed URL shape
with nothing after the project number — the executable whole-string twin
of `ShapedStart`, used to exhibit that the code accepts more. -/
def wellFormedUrl (s : String) : Bool :=
  let cs := s.data
  let cs1 := match stripLit "https://" cs with
    | some r => r
    | none => cs
  match stripLit "github.com/" cs1 with
  | none => false
  | some cs2 =>
    let kindResult : Option (List Char) :=
      match stripLit "orgs/" cs2 with
      | some r => some r
      | none =>
        match stripLit "users/" cs2 with
        | some r => some r
        | none => none
    match kindResult with
    | none => false
    | some cs3 =>
      let nameChars := cs3.takeWhile (fun c => !(c == '/'))
      let rest := cs3.dropWhile (fun c => !(c == '/'))
      if nameChars.isEmpty then false
      else
        match stripLit "/projects/" rest with
        | none => false
        | some cs4 =>
          let digits := cs4.takeWhile Char.isDigit
          !digits.isEmpty && (cs4.dropWhile Char.isDigit).isEmpty

/-- Claim C7 (amended): well-formed org and user URLs map to the stated
owner type, owner name and number (with trailing non-digit characters
after the number permitted); every string the parser accepts begins with
the documented shape — but the pattern is right-unanchored, so strings
continuing past the project number also parse (see the counterexample);
`mustGetOwnerTypeQuery` sends `orgs` to `organization`, `users` to `user`
and fails on anything else. -/
theorem c7_url_resolution :
    (∀ (owner : String) (digits : List Char) (suffix : String),
      owner.data ≠ [] → (∀ c ∈ owner.data, c ≠ '/') →
      digits ≠ [] → (∀ c ∈ digits, c.isDigit = true) →
      suffix.data.takeWhile Char.isDigit = [] →
      urlParse ⟨"https://github.com/orgs/".data ++ owner.data ++ ("/projects/".data
          ++ (digits ++ suffix.data))⟩ = some ⟨"orgs", owner, digitsToNat digits⟩ ∧
      urlParse ⟨"https://github.com/users/".data ++ owner.data ++ ("/projects/".data
          ++ (digits ++ suffix.data))⟩ = some ⟨"users", owner, digitsToNat digits⟩) ∧
    (∀ (s : String) (r : UrlMatch), urlParse s = some r → ShapedStart s) ∧
    mustGetOwnerTypeQuery (some "orgs") = .ok "organization" ∧
    mustGetOwnerTypeQuery (some "users") = .ok "user" ∧
    (∀ t : Option String, t ≠ some "orgs" → t ≠ some "users" →
      mustGetOwnerTypeQuery t = .error (.unsupported t)) := by
  refine ⟨?_, fun s r h => urlParse_some_shaped h, rfl, rfl, ?_⟩
  · intro owner digits suffix ho hsl hd hdig hsuf
    constructor
    · have e : urlParse ⟨"https://github.com/orgs/".data ++ owner.data
          ++ ("/projects/".data ++ (digits ++ suffix.data))⟩
          = parseOwnerTail "orgs" (owner.data ++ ("/projects/".data
            ++ (digits ++ suffix.data))) := rfl
      rw [e]
      exact parseOwnerTail_spec "orgs" owner digits suffix ho hsl hd hdig hsuf
    · have e : urlParse ⟨"https://github.com/users/".data ++ owner.data
          ++ ("/projects/".data ++ (digits ++ suffix.data))⟩
          = parseOwnerTail "users" (owner.data ++ ("/projects/".data
            ++ (digits ++ suffix.data))) := rfl
      rw [e]
      exact parseOwnerTail_spec "users" owner digits suffix ho hsl hd hdig hsuf
  · intro t h1 h2
    have e1 : (t == some "orgs") = false := by simp [h1]
    have e2 : (t == some "users") = false := by simp [h2]
    simp [mustGetOwnerTypeQuery, e1, e2]

/-- Witness for C7: the spec's org example URL parses to the expected
groups. -/
theorem c7_url_resolution_witness :
    urlParse ⟨"https://github.com/orgs/".data ++ "acme".data ++ ("/projects/".data
        ++ (['7'] ++ "".data))⟩ = some ⟨"orgs", "acme", digitsToNat ['7']⟩ :=
  (c7_url_resolution.1 "acme" ['7'] "" (by decide) (by decide) (by decide) (by decide)
    (by decide)).1

/-- Claim C7, counterexample: a URL continuing past the project number is
not of the documented shape, yet the right-unanchored regex accepts it and
returns the groups of its shaped prefix — it does not fail with the
invalid-URL error the claim requires for any other shape. -/
theorem c7_trailing_suffix_counterexample :
    urlParse "https://github.com/orgs/acme/projects/7/views/1" = some ⟨"orgs", "acme", 7⟩ ∧
    wellFormedUrl "https://github.com/orgs/acme/projects/7/views/1" = false :=
  ⟨by decide, by decide⟩

end AddToProject
